import Mathlib

/-!
Verification of the core of `torch/csrc/deploy/deploy.cpp` (torch::deploy):
the lock-free `LoadBalancer`, embedded-interpreter image discovery
(`writeDeployInterpreter` over `interpreter_search_path`), session and
movable-object lifecycle (`InterpreterSession::create_movable`,
`ReplicatedObjImpl::unload`), and `Interpreter` teardown ordering.

Machine integers: the balancer's usage counters are `uint64_t`; they are
modelled as `Int` values kept in `[0, 2^64)` with an explicit `% 2^64` at
every update, matching C unsigned wraparound semantics.
-/

namespace TorchDeploy

/-- The modulus `2^64` of the `uint64_t` usage counters. -/
def U64 : Int := 2 ^ 64

/-- Pointwise function update used to model a store into the `uses_` array
(slot `i` lives at `uses_[8*i]`; the 8-stride padding is memory layout and
is dropped, one logical cell per slot). -/
def updFn (f : Nat → Int) (i : Nat) (v : Int) : Nat → Int :=
  fun j => if j = i then v else f j

/-- State of a `LoadBalancer` together with the (single) caller's
`thread_local int last` scan cursor: `n` is the pool size `n_`, `uses j`
is the `uint64_t` counter of slot `j`. -/
structure LBState where
  n : Nat
  uses : Nat → Int
  last : Nat

/-- The cursor wrap performed at the top of each loop iteration of
`LoadBalancer::acquire`: `if (last >= n_) last = 0;`. -/
def wrapCursor (n last : Nat) : Nat :=
  if n ≤ last then 0 else last

/-- The scan loop of `LoadBalancer::acquire` (deploy.cpp:247-271), executed
sequentially (single caller): `fuel` is the remaining iteration count
(`n_ - i`), `last` the cursor, `minusers`/`minIdx` the slow-path tracking
(`minusers` starts at `SIZE_MAX = 2^64 - 1`, `min_idx` at 0).  Each
iteration first wraps the cursor, then attempts the compare-and-set of
`uses_[8*last]` from 0 to 1; on success it returns the slot (cursor left at
it), otherwise it records the observed value if strictly below `minusers`
and advances.  When fuel runs out, the tracked `min_idx` slot is
incremented (`__atomic_fetch_add`, wrapping) and returned.
Result: (returned index, new counters, final cursor value). -/
def acquireGo (n : Nat) : Nat → (Nat → Int) → Nat → Int → Nat → Nat × (Nat → Int) × Nat
  | 0, uses, last, _, minIdx =>
      (minIdx, updFn uses minIdx ((uses minIdx + 1) % U64), last)
  | fuel + 1, uses, last, minusers, minIdx =>
      if uses (wrapCursor n last) = 0 then
        (wrapCursor n last, updFn uses (wrapCursor n last) 1, wrapCursor n last)
      else if uses (wrapCursor n last) < minusers then
        acquireGo n fuel uses (wrapCursor n last + 1) (uses (wrapCursor n last)) (wrapCursor n last)
      else
        acquireGo n fuel uses (wrapCursor n last + 1) minusers minIdx

/-- Model of `LoadBalancer::acquire` (deploy.cpp:242-278) for a single caller whose
thread-local cursor is part of the state. -/
def LBState.acquire (s : LBState) : Nat × LBState :=
  ((acquireGo s.n s.n s.uses s.last (U64 - 1) 0).1,
   { n := s.n,
     uses := (acquireGo s.n s.n s.uses s.last (U64 - 1) 0).2.1,
     last := (acquireGo s.n s.n s.uses s.last (U64 - 1) 0).2.2 })

/-- Model of `LoadBalancer::free` (deploy.cpp:280-285): unconditional
`__atomic_fetch_sub(&uses_[8*where], 1ULL, ...)`, wrapping uint64. -/
def LBState.free (s : LBState) (i : Nat) : LBState :=
  { s with uses := updFn s.uses i ((s.uses i - 1) % U64) }

/-- An operation on the balancer: an `acquire()` call or a `free(i)` call. -/
inductive LBOp where
  | acq : LBOp
  | rel : Nat → LBOp
deriving DecidableEq

/-- Run a sequence of balancer operations from a state. -/
def runLB (s : LBState) : List LBOp → LBState
  | [] => s
  | LBOp.acq :: ops => runLB s.acquire.2 ops
  | LBOp.rel i :: ops => runLB (s.free i) ops

/-- All counters hold a valid `uint64_t` value: in `[0, 2^64)`. -/
def CountersWF (s : LBState) : Prop :=
  ∀ j, 0 ≤ s.uses j ∧ s.uses j < U64

/-- Performs `k` consecutive `acquire()` calls with no interleaved `free()`,
returning the list of returned indices in order along with the final state. -/
def acquireN (s : LBState) : Nat → List Nat × LBState
  | 0 => ([], s)
  | k + 1 =>
      ((s.acquire.1 :: (acquireN s.acquire.2 k).1), (acquireN s.acquire.2 k).2)

/-- Every counter is 0 or 1 (no `free` has happened on an untouched pool). -/
def ZeroOne (s : LBState) : Prop :=
  ∀ j, j < s.n → s.uses j = 0 ∨ s.uses j = 1

/-- The number of idle slots. -/
def zeroCount (s : LBState) : Nat :=
  ((Finset.range s.n).filter (fun j => s.uses j = 0)).card

/-- The pure `minusers`/`min_idx` tracking of the scan loop of
`LoadBalancer::acquire`, isolated from the CAS: at each step the observed
value replaces the tracked minimum only when strictly smaller
(`if (prev < minusers)`). -/
def trackMin (n : Nat) (uses : Nat → Int) : Nat → Nat → Int → Nat → Int × Nat
  | 0, _, mu, mi => (mu, mi)
  | fuel + 1, c, mu, mi =>
      if uses (wrapCursor n c) < mu then
        trackMin n uses fuel (wrapCursor n c + 1) (uses (wrapCursor n c)) (wrapCursor n c)
      else
        trackMin n uses fuel (wrapCursor n c + 1) mu mi

/-- The claim's description of the slow path, in its own words: `r` is the
slot whose counter value observed during the scan is smallest, and the
first such slot in scan order from the caller's cursor `c`. -/
def FirstMinAt (uses : Nat → Int) (n c r : Nat) : Prop :=
  ∃ t, t < n ∧ r = (c + t) % n ∧
    (∀ u, u < n → uses r ≤ uses ((c + u) % n)) ∧
    (∀ u, u < t → uses r < uses ((c + u) % n))

/-- The state refuting claim C3 as stated: 2 slots, both counters at
`2^64 - 1` (reachable: `free` on an idle slot wraps its counter to
`2^64 - 1`), caller cursor at slot 1. -/
def slowCexLB : LBState := ⟨2, fun _ => U64 - 1, 1⟩

/-- A concrete slow-path state for the C3 witness: 2 slots, counters 2 and
1, cursor at 0; the first minimal slot in scan order is slot 1. -/
def slowWitLB : LBState := ⟨2, fun j => if j = 1 then 1 else 2, 0⟩

/-- An entry of the embedded-image variant list (deploy.cpp:9-13). -/
structure InterpreterSymbol where
  start_sym : String
  end_sym : String
  custom_loader : Bool
deriving DecidableEq

/-- Model of `interpreter_search_path` (deploy.cpp:24-34): the ordered variant list,
most capable first. -/
def interpreter_search_path : List InterpreterSymbol :=
  [⟨"_binary_libtorch_deployinterpreter_all_so_start",
    "_binary_libtorch_deployinterpreter_all_so_end", true⟩,
   ⟨"_binary_libtorch_deployinterpreter_cuda_so_start",
    "_binary_libtorch_deployinterpreter_cuda_so_end", false⟩,
   ⟨"_binary_libtorch_deployinterpreter_cpu_so_start",
    "_binary_libtorch_deployinterpreter_cpu_so_end", false⟩]

/-- The search loop of `writeDeployInterpreter` (deploy.cpp:41-48): the
process symbol table is abstracted as `resolve : String → Option Nat`
(`dlsym`, `some addr` when the symbol resolves).  The loop breaks at the
FIRST entry whose `start_sym` resolves, taking (`lib_start`, `lib_end`,
`custom_loader`) from it; later entries are not consulted. -/
def findInterpreterLib (resolve : String → Option Nat) :
    List InterpreterSymbol → Option Nat × Option Nat × Bool
  | [] => (none, none, false)
  | s :: rest =>
      match resolve s.start_sym with
      | some a => (some a, resolve s.end_sym, s.custom_loader)
      | none => findInterpreterLib resolve rest

/-- The diagnostic of the `TORCH_CHECK` at deploy.cpp:49-52 (the source also
appends the value of `torch::cuda::is_available()`). -/
def deployFatalMsg : String :=
  "torch::deploy requires a build-time dependency on embedded_interpreter or embedded_interpreter_cuda, neither of which were found."

/-- Model of `writeDeployInterpreter` (deploy.cpp:36-58), selection and check only
(the `fwrite` of the byte range is I/O and carries no decision): runs the
search loop over `interpreter_search_path`, then `TORCH_CHECK`s that both
`lib_start` and `lib_end` resolved; on success reports the variant's
`custom_loader` flag. -/
def writeDeployInterpreter (resolve : String → Option Nat) : Except String Bool :=
  match findInterpreterLib resolve interpreter_search_path with
  | (some _, some _, cl) => Except.ok cl
  | _ => Except.error deployFatalMsg

/-- The claim's selection rule, in its own words: the first variant for
which BOTH the start symbol and the end symbol resolve. -/
def specSelectVariant (resolve : String → Option Nat) :
    List InterpreterSymbol → Option InterpreterSymbol
  | [] => none
  | s :: rest =>
      if (resolve s.start_sym).isSome ∧ (resolve s.end_sym).isSome then some s
      else specSelectVariant resolve rest

/-- The code's actual selection rule: the first variant whose START symbol
resolves (the end symbol is not part of the search). -/
def firstStartMatch (resolve : String → Option Nat) :
    List InterpreterSymbol → Option InterpreterSymbol
  | [] => none
  | s :: rest =>
      if (resolve s.start_sym).isSome then some s
      else firstStartMatch resolve rest

/-- A symbol table refuting claim C4 as stated: the most-capable variant's
start symbol resolves but its end symbol does not, while both symbols of
the cpu variant resolve. -/
def cexResolve (s : String) : Option Nat :=
  if s = "_binary_libtorch_deployinterpreter_all_so_start" then some 1
  else if s = "_binary_libtorch_deployinterpreter_cpu_so_start" then some 2
  else if s = "_binary_libtorch_deployinterpreter_cpu_so_end" then some 3
  else none

/-- The id-minting fields of `InterpreterManager`.  Modelled from the spec:
the field `next_object_id_` is declared in `deploy.h` (not under `src/`);
per the spec it is the pool's "monotonically increasing object-id counter"
drawn by `create_movable`.  `deploy.cpp:159` post-increments it
(`manager_->next_object_id_++`). -/
structure ManagerState where
  next_object_id : Nat
deriving DecidableEq

/-- The post-increment draw of `next_object_id_` (deploy.cpp:159):
yields the current value and bumps the counter. -/
def mintStep (m : ManagerState) : Nat × ManagerState :=
  (m.next_object_id, ⟨m.next_object_id + 1⟩)

/-- The data of a `ReplicatedObjImpl` as constructed at deploy.cpp:158-159:
the minted id and the pickled payload (payload bytes abstracted as a
string). -/
structure ReplicatedObjModel where
  object_id : Nat
  data : String
deriving DecidableEq

/-- The `TORCH_CHECK` message of `InterpreterSession::create_movable`
(deploy.cpp:154-156). -/
def createMovableCheckMsg : String :=
  "Can only create a movable object when the session was created from an interpreter that is part of a InterpreterManager"

/-- Model of `InterpreterSession::create_movable` (deploy.cpp:152-161): the session's
`manager_` pointer is `Option ManagerState` (none for a pinned or manually
created session).  The `TORCH_CHECK(manager_, ...)` raises a precondition
error before anything else; otherwise the object is pickled and a
`ReplicatedObj` is built with a freshly drawn id.  Result: (outcome, the
manager state afterwards). -/
def create_movable (manager : Option ManagerState) (pickled : String) :
    Except String ReplicatedObjModel × Option ManagerState :=
  match manager with
  | none => (Except.error createMovableCheckMsg, none)
  | some m =>
      (Except.ok ⟨(mintStep m).1, pickled⟩, some (mintStep m).2)

/-- Per-instance materialization cache: the set of object ids currently
materialized on one instance.  Modelled from the spec:
`InterpreterImpl::unload(id)` (called at deploy.cpp:137, defined outside
`src/`) evicts the cached materialization for `id` on that instance; per
the spec, unloading an id that is not materialized is a no-op, never an
error. -/
def implUnload (cache : Finset Nat) (oid : Nat) : Finset Nat :=
  cache.erase oid

/-- A targeted `ReplicatedObjImpl::unload(&interp)` on instance `k`
(deploy.cpp:136-137): acquire a session on that instance and evict the
object's cached materialization there; all other instances' caches are
untouched. -/
def unloadOn (caches : Nat → Finset Nat) (oid k : Nat) : Nat → Finset Nat :=
  fun j => if j = k then implUnload (caches j) oid else caches j

/-- Model of `ReplicatedObjImpl::unload(on_this_interpreter)` (deploy.cpp:126-139):
with a target instance, the targeted eviction; with `none`, the broadcast —
`for (auto& interp : manager_->all_instances()) unload(&interp);`, a
targeted unload on every instance of the pool in order.  Result: the list
of instance indices on which a session was acquired, and the caches
afterwards. -/
def objUnload (n : Nat) (caches : Nat → Finset Nat) (oid : Nat) :
    Option Nat → List Nat × (Nat → Finset Nat)
  | some k => ([k], unloadOn caches oid k)
  | none => (List.range n, List.foldl (fun cs k => unloadOn cs oid k) caches (List.range n))

/-- Model of `~ReplicatedObjImpl` (deploy.cpp:142-144): the destructor of the last
handle is exactly `unload(nullptr)`, the broadcast. -/
def replicatedObjDtor (n : Nat) (caches : Nat → Finset Nat) (oid : Nat) :
    List Nat × (Nat → Finset Nat) :=
  objUnload n caches oid none

/-- The pool state a `create_movable`/destruction sequence acts on: the
id counter plus every instance's materialization cache. -/
structure PoolState where
  mgr : ManagerState
  nInstances : Nat
  caches : Nat → Finset Nat

/-- One pool-level event: a successful `create_movable` on some session of
this pool (the only id-drawing path), or the destruction of a
`MovableObject`'s last handle (`~ReplicatedObjImpl`, the unload broadcast —
which never touches the id counter). -/
inductive PoolOp where
  | mint : String → PoolOp
  | destroyObj : Nat → PoolOp

/-- Step a pool state by one event, using `mintStep`
(`manager_->next_object_id_++`) and `replicatedObjDtor`. -/
def poolStep (s : PoolState) : PoolOp → PoolState
  | PoolOp.mint _ => { s with mgr := (mintStep s.mgr).2 }
  | PoolOp.destroyObj oid =>
      { s with caches := (replicatedObjDtor s.nInstances s.caches oid).2 }

/-- The object ids assigned by the `create_movable` calls of an event
sequence, in minting order. -/
def mintedIds (s : PoolState) : List PoolOp → List Nat
  | [] => []
  | PoolOp.mint p :: ops => (mintStep s.mgr).1 :: mintedIds (poolStep s (PoolOp.mint p)) ops
  | PoolOp.destroyObj oid :: ops => mintedIds (poolStep s (PoolOp.destroyObj oid)) ops

/-- The observable actions of `Interpreter::~Interpreter`
(deploy.cpp:229-240). -/
inductive TeardownEvent where
  | resetControlHandle
  | flushPythonLibs
  | closeImage
deriving DecidableEq

/-- Model of `Interpreter::~Interpreter` (deploy.cpp:229-240) as its action trace:
nothing when `handle_` is null; otherwise `pImpl_.reset()` (release the
runtime-control handle so python uninitialization runs first), then — only
when `custom_loader_` — one call of the `deploy_flush_python_libs` hook,
and finally `dlclose(handle_)`. -/
def interpreterDtor (handle : Option Nat) (custom_loader : Bool) :
    List TeardownEvent :=
  match handle with
  | none => []
  | some _ =>
      TeardownEvent.resetControlHandle ::
        ((if custom_loader then [TeardownEvent.flushPythonLibs] else []) ++
          [TeardownEvent.closeImage])

/-- Model of `InterpreterSession::~InterpreterSession` (deploy.cpp:120-124), effect
on the balancer: `if (manager_ && notify_idx_ >= 0)
manager_->resources_.free(notify_idx_);`.  The session's `manager_`
pointer is abstracted to whether it is non-null; `notify_idx_` is the
`int` field.  Modelled from the spec for the fields' provenance (they are
declared in `deploy.h`, not under `src/`): a session obtained through the
balancer carries the manager pointer and its bound index in `notify_idx_`
(≥ 0), while a session pinned to a specific instance does not. -/
def sessionDtorLB (lb : LBState) (hasManager : Bool) (notifyIdx : Int) : LBState :=
  if hasManager = true ∧ 0 ≤ notifyIdx then lb.free notifyIdx.toNat else lb

lemma U64_pos : (0 : Int) < U64 := by norm_num [U64]

lemma emod_U64_bounds (x : Int) : 0 ≤ x % U64 ∧ x % U64 < U64 :=
  ⟨Int.emod_nonneg x (by norm_num [U64]), Int.emod_lt_of_pos x U64_pos⟩

lemma acquireGo_counters_wf (n : Nat) :
    ∀ (fuel : Nat) (uses : Nat → Int) (last : Nat) (mu : Int) (mi : Nat),
      (∀ j, 0 ≤ uses j ∧ uses j < U64) →
      ∀ j, 0 ≤ (acquireGo n fuel uses last mu mi).2.1 j ∧
           (acquireGo n fuel uses last mu mi).2.1 j < U64 := by
  intro fuel
  induction fuel with
  | zero =>
      intro uses last mu mi h j
      simp only [acquireGo, updFn]
      by_cases hj : j = mi
      · simp [hj, emod_U64_bounds]
      · simp [hj, h j]
  | succ f ih =>
      intro uses last mu mi h j
      simp only [acquireGo]
      by_cases h0 : uses (wrapCursor n last) = 0
      · simp only [h0, if_true, updFn]
        by_cases hj : j = wrapCursor n last
        · simp [hj]; norm_num [U64]
        · simp [hj, h j]
      · simp only [h0, if_false]
        by_cases hlt : uses (wrapCursor n last) < mu
        · simp only [hlt, if_true]; exact ih _ _ _ _ h j
        · simp only [hlt, if_false]; exact ih _ _ _ _ h j

lemma acquire_counters_wf (s : LBState) (h : CountersWF s) :
    CountersWF s.acquire.2 := by
  intro j
  exact acquireGo_counters_wf s.n s.n s.uses s.last (U64 - 1) 0 h j

lemma free_counters_wf (s : LBState) (i : Nat) (h : CountersWF s) :
    CountersWF (s.free i) := by
  intro j
  simp only [LBState.free, updFn]
  by_cases hj : j = i
  · simp [hj, emod_U64_bounds]
  · simp [hj, h j]

/-- Claim C2: for every sequence of `acquire`/`free` calls from a state with
valid `uint64_t` counters, every slot's usage counter stays ≥ 0 (and below
`2^64`) — in particular after sequences that call `free(i)` on a slot whose
counter is 0, where the unsigned subtraction wraps to `2^64 - 1`, still
nonnegative.  "At all times" follows since every intermediate state is the
final state of a prefix of the operation sequence, quantified here. -/
theorem loadBalancer_counters_nonneg (s : LBState) (ops : List LBOp)
    (h : CountersWF s) : ∀ j, 0 ≤ (runLB s ops).uses j := by
  suffices hwf : CountersWF (runLB s ops) by
    intro j; exact (hwf j).1
  induction ops generalizing s with
  | nil => exact h
  | cons op ops ih =>
      cases op with
      | acq => exact ih _ (acquire_counters_wf s h)
      | rel i => exact ih _ (free_counters_wf s i h)

/-- Witness for C2 at a concrete input: pool of size 1, counters at 0,
a single `free(0)` call on the idle slot (counter 0). -/
theorem loadBalancer_counters_nonneg_witness :
    0 ≤ (runLB ⟨1, fun _ => 0, 0⟩ [LBOp.rel 0]).uses 0 :=
  loadBalancer_counters_nonneg ⟨1, fun _ => 0, 0⟩ [LBOp.rel 0]
    (fun _ => ⟨le_refl 0, U64_pos⟩) 0

lemma wrapCursor_eq_mod (n c : Nat) (_hn : 0 < n) (hc : c ≤ n) :
    wrapCursor n c = c % n := by
  unfold wrapCursor
  rcases Nat.lt_or_ge c n with h | h
  · simp [Nat.not_le.mpr h, Nat.mod_eq_of_lt h]
  · have : c = n := le_antisymm hc h
    simp [this]

lemma wrapCursor_lt (n c : Nat) (hn : 0 < n) (hc : c ≤ n) :
    wrapCursor n c < n := by
  rw [wrapCursor_eq_mod n c hn hc]
  exact Nat.mod_lt c hn

/-- If some position scanned within the remaining fuel holds counter 0, the
loop takes the fast path: it returns the first such position `r`, setting
its counter to 1 (CAS 0 → 1) and leaving the cursor at `r`. -/
lemma acquireGo_fast (n : Nat) (uses : Nat → Int) :
    ∀ (fuel c : Nat) (mu : Int) (mi : Nat),
      0 < n → c ≤ n →
      (∃ t, t < fuel ∧ uses ((c + t) % n) = 0) →
      ∃ r, acquireGo n fuel uses c mu mi = (r, updFn uses r 1, r) ∧
        r < n ∧ uses r = 0 := by
  intro fuel
  induction fuel with
  | zero =>
      intro c mu mi _ _ h
      rcases h with ⟨t, ht, _⟩
      exact absurd ht (Nat.not_lt_zero t)
  | succ f ih =>
      intro c mu mi hn hc h
      have hpos : wrapCursor n c = c % n := wrapCursor_eq_mod n c hn hc
      have hlt : wrapCursor n c < n := wrapCursor_lt n c hn hc
      by_cases h0 : uses (wrapCursor n c) = 0
      · refine ⟨wrapCursor n c, ?_, hlt, h0⟩
        simp [acquireGo, h0]
      · rcases h with ⟨t, ht, hz⟩
        have ht0 : t ≠ 0 := by
          intro h'
          apply h0
          rw [hpos]
          simpa [h'] using hz
        have hnext : ∃ t', t' < f ∧ uses ((wrapCursor n c + 1 + t') % n) = 0 := by
          refine ⟨t - 1, by omega, ?_⟩
          have : (wrapCursor n c + 1 + (t - 1)) % n = (c + t) % n := by
            rw [hpos]
            have h1 : c % n + 1 + (t - 1) = c % n + t := by omega
            rw [h1, Nat.mod_add_mod]
          rw [this]; exact hz
        have hc' : wrapCursor n c + 1 ≤ n := hlt
        by_cases hmu : uses (wrapCursor n c) < mu
        · have := ih (wrapCursor n c + 1) (uses (wrapCursor n c)) (wrapCursor n c) hn hc' hnext
          rcases this with ⟨r, hr, hrn, hr0⟩
          refine ⟨r, ?_, hrn, hr0⟩
          simp only [acquireGo, h0, if_false, hmu, if_true]
          exact hr
        · have := ih (wrapCursor n c + 1) mu mi hn hc' hnext
          rcases this with ⟨r, hr, hrn, hr0⟩
          refine ⟨r, ?_, hrn, hr0⟩
          simp only [acquireGo, h0, if_false, hmu, if_true]
          exact hr

/-- A full scan of `n` steps from any cursor `c ≤ n` visits every slot. -/
lemma scan_coverage (n c j : Nat) (hn : 0 < n) (hj : j < n) :
    ∃ t, t < n ∧ (c + t) % n = j := by
  refine ⟨(n + j - c % n) % n, Nat.mod_lt _ hn, ?_⟩
  have hc' : c % n < n := Nat.mod_lt c hn
  have h1 : (c + (n + j - c % n) % n) % n = (c % n + (n + j - c % n) % n) % n := by
    rw [Nat.mod_add_mod]
  rw [h1, Nat.add_mod_mod]
  have h2 : c % n + (n + j - c % n) = n + j := by omega
  rw [h2, Nat.add_mod_left, Nat.mod_eq_of_lt hj]

/-- If some slot is idle (counter 0), `acquire` returns such a slot `r`,
setting its counter to 1, and moves the cursor to `r`. -/
lemma acquire_fast (s : LBState) (hn : 0 < s.n) (hc : s.last ≤ s.n)
    (h : ∃ j, j < s.n ∧ s.uses j = 0) :
    ∃ r, s.acquire = (r, ⟨s.n, updFn s.uses r 1, r⟩) ∧ r < s.n ∧ s.uses r = 0 := by
  rcases h with ⟨j, hj, hz⟩
  rcases scan_coverage s.n s.last j hn hj with ⟨t, ht, hpos⟩
  rcases acquireGo_fast s.n s.uses s.n s.last (U64 - 1) 0 hn hc
      ⟨t, ht, by rw [hpos]; exact hz⟩ with ⟨r, hr, hrn, hr0⟩
  refine ⟨r, ?_, hrn, hr0⟩
  unfold LBState.acquire
  rw [hr]

lemma zeroCount_pos_exists (s : LBState) (h : 0 < zeroCount s) :
    ∃ j, j < s.n ∧ s.uses j = 0 := by
  rcases Finset.card_pos.mp h with ⟨j, hj⟩
  rcases Finset.mem_filter.mp hj with ⟨hj1, hj2⟩
  exact ⟨j, Finset.mem_range.mp hj1, hj2⟩

lemma zeroCount_after_acquire (s : LBState) (r : Nat) (hrn : r < s.n)
    (hr0 : s.uses r = 0) :
    zeroCount ⟨s.n, updFn s.uses r 1, r⟩ = zeroCount s - 1 := by
  unfold zeroCount
  have hset : (Finset.range s.n).filter (fun j => updFn s.uses r 1 j = 0) =
      ((Finset.range s.n).filter (fun j => s.uses j = 0)).erase r := by
    ext j
    simp only [Finset.mem_filter, Finset.mem_erase, Finset.mem_range, updFn]
    constructor
    · intro ⟨hj, hv⟩
      by_cases hjr : j = r
      · simp [hjr] at hv
      · rw [if_neg hjr] at hv
        exact ⟨hjr, hj, hv⟩
    · intro ⟨hjr, hj, hv⟩
      exact ⟨hj, by rw [if_neg hjr]; exact hv⟩
  rw [hset, Finset.card_erase_of_mem]
  exact Finset.mem_filter.mpr ⟨Finset.mem_range.mpr hrn, hr0⟩

lemma acquireN_distinct (k : Nat) :
    ∀ (s : LBState), s.last ≤ s.n → ZeroOne s → k ≤ zeroCount s →
      (acquireN s k).1.Nodup ∧
      (∀ i ∈ (acquireN s k).1, i < s.n ∧ s.uses i = 0) ∧
      (acquireN s k).1.length = k := by
  induction k with
  | zero => intro s _ _ _; simp [acquireN]
  | succ k ih =>
      intro s hc hzo hk
      have hzc : 0 < zeroCount s := by omega
      have hn : 0 < s.n := by
        have := Finset.card_filter_le (Finset.range s.n) (fun j => s.uses j = 0)
        simp only [Finset.card_range] at this
        unfold zeroCount at hzc
        omega
      rcases acquire_fast s hn hc (zeroCount_pos_exists s hzc) with ⟨r, hacq, hrn, hr0⟩
      set s' : LBState := ⟨s.n, updFn s.uses r 1, r⟩ with hs'
      have hlast' : s'.last ≤ s'.n := le_of_lt hrn
      have hzo' : ZeroOne s' := by
        intro j hj
        simp only [hs', updFn]
        by_cases hjr : j = r
        · right; simp [hjr]
        · rw [if_neg hjr]; exact hzo j hj
      have hk' : k ≤ zeroCount s' := by
        rw [hs', zeroCount_after_acquire s r hrn hr0]
        omega
      rcases ih s' hlast' hzo' hk' with ⟨hnd, hmem, hlen⟩
      have hstep : acquireN s (k + 1) =
          (r :: (acquireN s' k).1, (acquireN s' k).2) := by
        simp only [acquireN, hacq]
      constructor
      · rw [hstep]
        refine List.nodup_cons.mpr ⟨?_, hnd⟩
        intro hmem'
        have := (hmem r hmem').2
        simp only [hs', updFn, if_pos rfl] at this
        exact absurd this one_ne_zero
      constructor
      · rw [hstep]
        intro i hi
        rcases List.mem_cons.mp hi with hi | hi
        · subst hi; exact ⟨hrn, hr0⟩
        · have ⟨hin, hiz⟩ := hmem i hi
          simp only [hs', updFn] at hiz hin
          by_cases hir : i = r
          · rw [if_pos hir] at hiz; exact absurd hiz one_ne_zero
          · rw [if_neg hir] at hiz
            exact ⟨hin, hiz⟩
      · rw [hstep]
        simp [hlen]

/-- Claim C1: for a `LoadBalancer` over a pool of size `N` with all counters
idle (0), `N` consecutive `acquire()` calls by a single caller with no
interleaved `free()` return `N` pairwise-distinct indices, each in
`[0, N)`.  The caller's thread-local cursor may start anywhere in `[0, N]`
(its reachable range). -/
theorem loadBalancer_acquireN_distinct (s : LBState) (N : Nat)
    (hN : s.n = N) (hc : s.last ≤ N) (h0 : ∀ j, j < N → s.uses j = 0) :
    (acquireN s N).1.Nodup ∧ (∀ i ∈ (acquireN s N).1, i < N) ∧
    (acquireN s N).1.length = N := by
  subst hN
  have hzo : ZeroOne s := fun j hj => Or.inl (h0 j hj)
  have hzc : zeroCount s = s.n := by
    unfold zeroCount
    rw [Finset.filter_true_of_mem, Finset.card_range]
    intro j hj
    exact h0 j (Finset.mem_range.mp hj)
  rcases acquireN_distinct s.n s hc hzo (le_of_eq hzc.symm) with ⟨hnd, hmem, hlen⟩
  exact ⟨hnd, fun i hi => (hmem i hi).1, hlen⟩

/-- Witness for C1 at a concrete input: a fresh balancer over 2 slots. -/
theorem loadBalancer_acquireN_distinct_witness :
    (acquireN ⟨2, fun _ => 0, 0⟩ 2).1.Nodup ∧
    (∀ i ∈ (acquireN ⟨2, fun _ => 0, 0⟩ 2).1, i < 2) ∧
    (acquireN ⟨2, fun _ => 0, 0⟩ 2).1.length = 2 :=
  loadBalancer_acquireN_distinct ⟨2, fun _ => 0, 0⟩ 2 rfl (by norm_num)
    (fun j _ => rfl)

lemma shift_mod (n c t : Nat) (hn : 0 < n) (hc : c ≤ n) :
    (wrapCursor n c + 1 + t) % n = (c + (t + 1)) % n := by
  rw [wrapCursor_eq_mod n c hn hc]
  have h : c % n + 1 + t = c % n + (t + 1) := by omega
  rw [h, Nat.mod_add_mod]

lemma trackMin_untouched (n : Nat) (uses : Nat → Int) :
    ∀ (fuel c : Nat) (mu : Int) (mi : Nat), 0 < n → c ≤ n →
      (∀ t, t < fuel → mu ≤ uses ((c + t) % n)) →
      trackMin n uses fuel c mu mi = (mu, mi) := by
  intro fuel
  induction fuel with
  | zero => intro c mu mi _ _ _; rfl
  | succ f ih =>
      intro c mu mi hn hc h
      have h0 : mu ≤ uses (wrapCursor n c) := by
        have := h 0 (Nat.succ_pos f)
        rwa [Nat.add_zero, ← wrapCursor_eq_mod n c hn hc] at this
      rw [trackMin, if_neg (not_lt.mpr h0)]
      refine ih (wrapCursor n c + 1) mu mi hn (wrapCursor_lt n c hn hc) ?_
      intro t ht
      rw [shift_mod n c t hn hc]
      exact h (t + 1) (by omega)

lemma trackMin_found (n : Nat) (uses : Nat → Int) :
    ∀ (fuel c : Nat) (mu : Int) (mi : Nat), 0 < n → c ≤ n →
      (∃ t, t < fuel ∧ uses ((c + t) % n) < mu) →
      ∃ t₀, t₀ < fuel ∧
        (trackMin n uses fuel c mu mi).1 = uses ((c + t₀) % n) ∧
        (trackMin n uses fuel c mu mi).2 = (c + t₀) % n ∧
        uses ((c + t₀) % n) < mu ∧
        (∀ t, t < fuel → uses ((c + t₀) % n) ≤ uses ((c + t) % n)) ∧
        (∀ t, t < t₀ → uses ((c + t₀) % n) < uses ((c + t) % n)) := by
  intro fuel
  induction fuel with
  | zero =>
      intro c mu mi _ _ h
      rcases h with ⟨t, ht, _⟩
      exact absurd ht (Nat.not_lt_zero t)
  | succ f ih =>
      intro c mu mi hn hc h
      have hpos0 : (c + 0) % n = wrapCursor n c := by
        rw [Nat.add_zero, wrapCursor_eq_mod n c hn hc]
      have hcs : wrapCursor n c + 1 ≤ n := wrapCursor_lt n c hn hc
      by_cases hA : uses (wrapCursor n c) < mu
      · rw [trackMin, if_pos hA]
        by_cases hA1 : ∃ t, t < f ∧
            uses ((wrapCursor n c + 1 + t) % n) < uses (wrapCursor n c)
        · rcases ih (wrapCursor n c + 1) (uses (wrapCursor n c)) (wrapCursor n c)
              hn hcs hA1 with ⟨t₀, ht₀, hmu, hmi, hlt, hall, hfirst⟩
          refine ⟨t₀ + 1, by omega, ?_, ?_, ?_, ?_, ?_⟩
          · rw [hmu, shift_mod n c t₀ hn hc]
          · rw [hmi, shift_mod n c t₀ hn hc]
          · rw [← shift_mod n c t₀ hn hc]
            exact lt_trans hlt hA
          · intro t ht
            rw [← shift_mod n c t₀ hn hc]
            cases t with
            | zero => rw [hpos0]; exact le_of_lt hlt
            | succ t' =>
                rw [← shift_mod n c t' hn hc]
                exact hall t' (by omega)
          · intro t ht
            rw [← shift_mod n c t₀ hn hc]
            cases t with
            | zero => rw [hpos0]; exact hlt
            | succ t' =>
                rw [← shift_mod n c t' hn hc]
                exact hfirst t' (by omega)
        · push_neg at hA1
          rw [trackMin_untouched n uses f (wrapCursor n c + 1)
              (uses (wrapCursor n c)) (wrapCursor n c) hn hcs hA1]
          refine ⟨0, Nat.succ_pos f, ?_, ?_, ?_, ?_, ?_⟩
          · rw [hpos0]
          · rw [hpos0]
          · rw [hpos0]; exact hA
          · intro t ht
            rw [hpos0]
            cases t with
            | zero => rw [hpos0]
            | succ t' =>
                rw [← shift_mod n c t' hn hc]
                exact hA1 t' (by omega)
          · intro t ht
            exact absurd ht (Nat.not_lt_zero t)
      · rw [trackMin, if_neg hA]
        push_neg at hA
        have h' : ∃ t, t < f ∧ uses ((wrapCursor n c + 1 + t) % n) < mu := by
          rcases h with ⟨t, ht, hv⟩
          cases t with
          | zero =>
              rw [hpos0] at hv
              exact absurd hv (not_lt.mpr hA)
          | succ t' =>
              refine ⟨t', by omega, ?_⟩
              rw [shift_mod n c t' hn hc]
              exact hv
        rcases ih (wrapCursor n c + 1) mu mi hn hcs h' with
          ⟨t₀, ht₀, hmu, hmi, hlt, hall, hfirst⟩
        refine ⟨t₀ + 1, by omega, ?_, ?_, ?_, ?_, ?_⟩
        · rw [hmu, shift_mod n c t₀ hn hc]
        · rw [hmi, shift_mod n c t₀ hn hc]
        · rw [← shift_mod n c t₀ hn hc]; exact hlt
        · intro t ht
          rw [← shift_mod n c t₀ hn hc]
          cases t with
          | zero => rw [hpos0]; exact le_trans (le_of_lt hlt) hA
          | succ t' =>
              rw [← shift_mod n c t' hn hc]
              exact hall t' (by omega)
        · intro t ht
          rw [← shift_mod n c t₀ hn hc]
          cases t with
          | zero => rw [hpos0]; exact lt_of_lt_of_le hlt hA
          | succ t' =>
              rw [← shift_mod n c t' hn hc]
              exact hfirst t' (by omega)

/-- When no slot is idle, every iteration of the scan loop fails its CAS, so
`acquire`'s loop reduces to the pure min tracking followed by the slow-path
increment of the tracked `min_idx`. -/
lemma acquireGo_slow (n : Nat) (uses : Nat → Int)
    (hnz : ∀ j, j < n → uses j ≠ 0) (hn : 0 < n) :
    ∀ (fuel c : Nat) (mu : Int) (mi : Nat), c ≤ n →
      ∃ l, acquireGo n fuel uses c mu mi =
        ((trackMin n uses fuel c mu mi).2,
         updFn uses (trackMin n uses fuel c mu mi).2
           ((uses ((trackMin n uses fuel c mu mi).2) + 1) % U64), l) := by
  intro fuel
  induction fuel with
  | zero => intro c mu mi _; exact ⟨c, rfl⟩
  | succ f ih =>
      intro c mu mi hc
      have hnz' : uses (wrapCursor n c) ≠ 0 :=
        hnz (wrapCursor n c) (wrapCursor_lt n c hn hc)
      have hcs : wrapCursor n c + 1 ≤ n := wrapCursor_lt n c hn hc
      by_cases hA : uses (wrapCursor n c) < mu
      · rcases ih (wrapCursor n c + 1) (uses (wrapCursor n c)) (wrapCursor n c) hcs
          with ⟨l, hl⟩
        refine ⟨l, ?_⟩
        rw [acquireGo, if_neg hnz', if_pos hA, hl, trackMin, if_pos hA]
      · rcases ih (wrapCursor n c + 1) mu mi hcs with ⟨l, hl⟩
        refine ⟨l, ?_⟩
        rw [acquireGo, if_neg hnz', if_neg hA, hl, trackMin, if_neg hA]

/-- Claim C3, amended: when no slot is idle during the scan (every counter
nonzero) AND at least one counter is strictly below `2^64 - 1` (the
`SIZE_MAX` sentinel that `minusers` starts at), `acquire()` returns the
first slot in scan order from the caller's cursor whose observed counter is
smallest, increments exactly that slot's counter by 1, and modifies no
other slot.  (Without the sentinel hypothesis the claim fails: a slot
observed at `2^64 - 1` never passes the strict `prev < minusers` test, so
with every counter at `2^64 - 1` the default `min_idx = 0` is returned
regardless of the cursor — see the counterexample.) -/
theorem acquire_slowPath_firstMin (s : LBState) (hn : 0 < s.n)
    (hc : s.last ≤ s.n) (hwf : CountersWF s)
    (hnz : ∀ j, j < s.n → s.uses j ≠ 0)
    (hsome : ∃ j, j < s.n ∧ s.uses j < U64 - 1) :
    FirstMinAt s.uses s.n s.last s.acquire.1 ∧
    s.acquire.2.uses s.acquire.1 = s.uses s.acquire.1 + 1 ∧
    ∀ j, j ≠ s.acquire.1 → s.acquire.2.uses j = s.uses j := by
  rcases hsome with ⟨j, hj, hjlt⟩
  rcases scan_coverage s.n s.last j hn hj with ⟨tj, htj, htjj⟩
  have hfound : ∃ t, t < s.n ∧ s.uses ((s.last + t) % s.n) < U64 - 1 :=
    ⟨tj, htj, by rw [htjj]; exact hjlt⟩
  rcases trackMin_found s.n s.uses s.n s.last (U64 - 1) 0 hn hc hfound with
    ⟨t₀, ht₀, hmu, hmi, hlt, hall, hfirst⟩
  rcases acquireGo_slow s.n s.uses hnz hn s.n s.last (U64 - 1) 0 hc with ⟨l, hl⟩
  have hacq1 : s.acquire.1 = (s.last + t₀) % s.n := by
    unfold LBState.acquire
    rw [hl, hmi]
  have hacq2 : s.acquire.2.uses =
      updFn s.uses ((s.last + t₀) % s.n)
        ((s.uses ((s.last + t₀) % s.n) + 1) % U64) := by
    unfold LBState.acquire
    rw [hl, hmi]
  have hrb : s.uses ((s.last + t₀) % s.n) + 1 < U64 := by
    have h1 : s.uses ((s.last + t₀) % s.n) ≤ s.uses ((s.last + tj) % s.n) :=
      hall tj htj
    rw [htjj] at h1
    omega
  have hrnn : 0 ≤ s.uses ((s.last + t₀) % s.n) + 1 := by
    have := (hwf ((s.last + t₀) % s.n)).1
    omega
  refine ⟨?_, ?_, ?_⟩
  · rw [hacq1]
    exact ⟨t₀, ht₀, rfl, hall, hfirst⟩
  · rw [hacq1, hacq2, updFn, if_pos rfl, Int.emod_eq_of_lt hrnn hrb]
  · intro k hk
    rw [hacq1] at hk
    rw [hacq2, updFn, if_neg hk]

/-- Claim C3 counterexample: on `slowCexLB` no slot is idle (counters are
valid uint64 values, all nonzero), the scan from cursor 1 observes slot 1
first, slot 1 is (tied-)minimal hence the first slot in scan order with the
smallest observed value — yet `acquire()` returns slot 0, because a slot
observed at `2^64 - 1 = SIZE_MAX` never satisfies the strict
`prev < minusers` test against the `SIZE_MAX`-initialized `minusers`, so
`min_idx` keeps its initial value 0. -/
theorem acquire_firstMin_counterexample :
    slowCexLB.last ≤ slowCexLB.n ∧ CountersWF slowCexLB ∧
    (∀ j, j < slowCexLB.n → slowCexLB.uses j ≠ 0) ∧
    slowCexLB.acquire.1 = 0 ∧
    ¬ FirstMinAt slowCexLB.uses slowCexLB.n slowCexLB.last slowCexLB.acquire.1 ∧
    FirstMinAt slowCexLB.uses slowCexLB.n slowCexLB.last 1 := by
  have hacq : slowCexLB.acquire.1 = 0 := by decide
  refine ⟨by decide, ?_, by decide, hacq, ?_, ?_⟩
  · intro j
    refine ⟨?_, ?_⟩ <;> norm_num [slowCexLB, U64]
  · rw [hacq]
    rintro ⟨t, ht, hr, _, hfirst⟩
    have ht2 : t < 2 := ht
    interval_cases t
    · exact absurd hr (by decide)
    · have := hfirst 0 Nat.zero_lt_one
      simp only [slowCexLB] at this
      exact absurd this (lt_irrefl _)
  · exact ⟨0, by decide, by decide, fun u _ => le_refl _, fun u hu => absurd hu (Nat.not_lt_zero u)⟩

/-- Witness for the amended C3 at `slowWitLB`. -/
theorem acquire_slowPath_firstMin_witness :
    FirstMinAt slowWitLB.uses slowWitLB.n slowWitLB.last slowWitLB.acquire.1 ∧
    slowWitLB.acquire.2.uses slowWitLB.acquire.1 =
      slowWitLB.uses slowWitLB.acquire.1 + 1 ∧
    ∀ j, j ≠ slowWitLB.acquire.1 → slowWitLB.acquire.2.uses j = slowWitLB.uses j :=
  acquire_slowPath_firstMin slowWitLB (by decide) (by decide)
    (fun j => by by_cases h : j = 1 <;> simp [slowWitLB, h] <;> norm_num [U64])
    (by decide)
    ⟨1, by norm_num [slowWitLB, U64]⟩

lemma findInterpreterLib_eq (resolve : String → Option Nat) :
    ∀ l : List InterpreterSymbol,
      findInterpreterLib resolve l =
        match firstStartMatch resolve l with
        | none => (none, none, false)
        | some s => (resolve s.start_sym, resolve s.end_sym, s.custom_loader) := by
  intro l
  induction l with
  | nil => rfl
  | cons s rest ih =>
      cases hs : resolve s.start_sym with
      | none =>
          rw [findInterpreterLib, hs, ih, firstStartMatch]
          simp [hs]
      | some a =>
          rw [findInterpreterLib, hs, firstStartMatch]
          simp [hs]

/-- Claim C4 counterexample: under `cexResolve` there IS a variant whose
start and end symbols both resolve (the cpu variant, with
`custom_loader = false`), so per the claim construction should select it
and succeed; but the code breaks at the first variant whose start symbol
resolves, looks up that variant's end symbol, finds it missing, and fails
fatally. -/
theorem writeDeployInterpreter_counterexample :
    specSelectVariant cexResolve interpreter_search_path =
      some ⟨"_binary_libtorch_deployinterpreter_cpu_so_start",
            "_binary_libtorch_deployinterpreter_cpu_so_end", false⟩ ∧
    writeDeployInterpreter cexResolve = Except.error deployFatalMsg := by
  constructor
  · rfl
  · rfl

/-- Claim C4, amended: embedded-image discovery scans the ordered variant
list and selects the first variant whose START symbol resolves in the
process's own symbol table; construction then fails fatally with a
diagnostic unless that variant's end symbol also resolves (it does not fall
through to later variants), and it fails fatally when no variant's start
symbol resolves.  On success the selected variant's `custom_loader` flag is
reported and no error is raised. -/
theorem writeDeployInterpreter_startSym_selection (resolve : String → Option Nat) :
    (firstStartMatch resolve interpreter_search_path = none →
      writeDeployInterpreter resolve = Except.error deployFatalMsg) ∧
    (∀ s, firstStartMatch resolve interpreter_search_path = some s →
      (resolve s.end_sym).isSome →
      writeDeployInterpreter resolve = Except.ok s.custom_loader) ∧
    (∀ s, firstStartMatch resolve interpreter_search_path = some s →
      resolve s.end_sym = none →
      writeDeployInterpreter resolve = Except.error deployFatalMsg) := by
  have hstart : ∀ (l : List InterpreterSymbol) (s : InterpreterSymbol),
      firstStartMatch resolve l = some s → (resolve s.start_sym).isSome := by
    intro l
    induction l with
    | nil => intro s h; exact absurd h (by simp [firstStartMatch])
    | cons x rest ih =>
        intro s h
        rw [firstStartMatch] at h
        by_cases hx : (resolve x.start_sym).isSome
        · rw [if_pos hx] at h
          cases h
          exact hx
        · rw [if_neg hx] at h
          exact ih s h
  refine ⟨?_, ?_, ?_⟩
  · intro h
    rw [writeDeployInterpreter, findInterpreterLib_eq, h]
  · intro s h he
    rcases Option.isSome_iff_exists.mp (hstart interpreter_search_path s h) with ⟨a, ha⟩
    rcases Option.isSome_iff_exists.mp he with ⟨b, hb⟩
    rw [writeDeployInterpreter, findInterpreterLib_eq, h]
    simp [ha, hb]
  · intro s h he
    rcases Option.isSome_iff_exists.mp (hstart interpreter_search_path s h) with ⟨a, ha⟩
    rw [writeDeployInterpreter, findInterpreterLib_eq, h]
    simp [ha, he]

/-- Witness for the amended C4 at the concrete symbol table `cexResolve`:
the first variant with a resolving start symbol is the `all` variant, whose
end symbol is missing, so discovery fails fatally. -/
theorem writeDeployInterpreter_startSym_selection_witness :
    writeDeployInterpreter cexResolve = Except.error deployFatalMsg :=
  (writeDeployInterpreter_startSym_selection cexResolve).2.2
    ⟨"_binary_libtorch_deployinterpreter_all_so_start",
     "_binary_libtorch_deployinterpreter_all_so_end", true⟩
    rfl rfl

/-- Claim C5: `create_movable` on a session with no associated manager (a
pinned or manually created session) fails synchronously with the
precondition error, minting no id and constructing no handle (the manager
side of the state is returned untouched); on a session that has a manager
it returns a new handle carrying the freshly drawn id and raises no
error. -/
theorem create_movable_requires_manager :
    (∀ p, create_movable none p =
      (Except.error createMovableCheckMsg, none)) ∧
    (∀ m p, create_movable (some m) p =
      (Except.ok ⟨m.next_object_id, p⟩, some ⟨m.next_object_id + 1⟩)) :=
  ⟨fun _ => rfl, fun _ _ => rfl⟩

lemma foldl_unloadOn (oid : Nat) :
    ∀ (l : List Nat) (caches : Nat → Finset Nat) (j : Nat),
      List.foldl (fun cs k => unloadOn cs oid k) caches l j =
        if j ∈ l then (caches j).erase oid else caches j := by
  intro l
  induction l with
  | nil => intro caches j; simp
  | cons k l ih =>
      intro caches j
      rw [List.foldl_cons, ih]
      by_cases hjl : j ∈ l
      · rw [if_pos hjl, if_pos (List.mem_cons.mpr (Or.inr hjl))]
        unfold unloadOn implUnload
        by_cases hjk : j = k
        · rw [if_pos hjk, Finset.erase_idem]
        · rw [if_neg hjk]
      · rw [if_neg hjl]
        unfold unloadOn implUnload
        by_cases hjk : j = k
        · rw [if_pos hjk, if_pos (List.mem_cons.mpr (Or.inl hjk))]
        · rw [if_neg hjk, if_neg (by simp [hjk, hjl])]

/-- Claim C7: destroying the last handle of a movable object performs the
unload broadcast: a session is acquired on EVERY instance of the pool — in
particular on every instance ever touched by the object's id — and the
cached materialization for that id is evicted there (no id survives on any
instance).  A targeted `unload(instance)` acquires a session on, and evicts
from, only that instance.  Unloading an id that is not materialized on an
instance leaves that instance's cache exactly unchanged (a no-op, and never
an error: the operation is total). -/
theorem replicatedObj_unload_broadcast (n : Nat) (caches : Nat → Finset Nat)
    (oid : Nat) :
    (∀ k, k < n → k ∈ (replicatedObjDtor n caches oid).1 ∧
      oid ∉ (replicatedObjDtor n caches oid).2 k) ∧
    (∀ k, k < n → (replicatedObjDtor n caches oid).2 k = (caches k).erase oid) ∧
    (∀ k, (objUnload n caches oid (some k)).1 = [k] ∧
      (objUnload n caches oid (some k)).2 k = (caches k).erase oid ∧
      ∀ j, j ≠ k → (objUnload n caches oid (some k)).2 j = caches j) ∧
    (∀ k, oid ∉ caches k → (objUnload n caches oid (some k)).2 k = caches k) := by
  refine ⟨?_, ?_, ?_, ?_⟩
  · intro k hk
    constructor
    · exact List.mem_range.mpr hk
    · show oid ∉ List.foldl (fun cs k => unloadOn cs oid k) caches (List.range n) k
      rw [foldl_unloadOn, if_pos (List.mem_range.mpr hk)]
      exact Finset.not_mem_erase oid (caches k)
  · intro k hk
    show List.foldl (fun cs k => unloadOn cs oid k) caches (List.range n) k = _
    rw [foldl_unloadOn, if_pos (List.mem_range.mpr hk)]
  · intro k
    refine ⟨rfl, ?_, ?_⟩
    · show unloadOn caches oid k k = _
      unfold unloadOn implUnload
      rw [if_pos rfl]
    · intro j hj
      show unloadOn caches oid k j = _
      unfold unloadOn
      rw [if_neg hj]
  · intro k hk
    show unloadOn caches oid k k = _
    unfold unloadOn implUnload
    rw [if_pos rfl]
    exact Finset.erase_eq_of_not_mem hk

/-- Witness for C7 at a concrete input: 2 instances, id 5 materialized only
on instance 0; the destructor broadcast acquires a session on instance 0
and evicts id 5 there, and a targeted unload on instance 1 — where id 5 is
not materialized — is a no-op. -/
theorem replicatedObj_unload_broadcast_witness :
    (0 ∈ (replicatedObjDtor 2 (fun j => if j = 0 then {5} else ∅) 5).1 ∧
      5 ∉ (replicatedObjDtor 2 (fun j => if j = 0 then {5} else ∅) 5).2 0) ∧
    (objUnload 2 (fun j => if j = 0 then {5} else ∅) 5 (some 1)).2 1 =
      (fun j => if j = 0 then ({5} : Finset Nat) else ∅) 1 :=
  ⟨(replicatedObj_unload_broadcast 2 (fun j => if j = 0 then {5} else ∅) 5).1 0
      (by norm_num),
   (replicatedObj_unload_broadcast 2 (fun j => if j = 0 then {5} else ∅) 5).2.2.2 1
      (by simp)⟩

lemma mintedIds_lower_bound :
    ∀ (ops : List PoolOp) (s : PoolState) (x : Nat),
      x ∈ mintedIds s ops → s.mgr.next_object_id ≤ x := by
  intro ops
  induction ops with
  | nil => intro s x hx; simp [mintedIds] at hx
  | cons op ops ih =>
      intro s x hx
      cases op with
      | mint p =>
          rcases List.mem_cons.mp hx with hx | hx
          · simp [mintStep] at hx
            omega
          · have := ih _ x hx
            simp only [poolStep, mintStep] at this
            omega
      | destroyObj oid =>
          have := ih _ x hx
          simpa [poolStep] using this

/-- Claim C6: over any sequence of pool events — `create_movable` calls
interleaved with `MovableObject` destructions — the object ids assigned are
strictly increasing in minting order, and in particular pairwise distinct:
no id is ever assigned twice during the pool's lifetime. -/
theorem pool_object_ids_strictly_increasing (s : PoolState) (ops : List PoolOp) :
    List.Pairwise (· < ·) (mintedIds s ops) ∧ (mintedIds s ops).Nodup := by
  suffices h : List.Pairwise (· < ·) (mintedIds s ops) by
    exact ⟨h, h.imp Nat.ne_of_lt⟩
  induction ops generalizing s with
  | nil => simp [mintedIds]
  | cons op ops ih =>
      cases op with
      | mint p =>
          rw [mintedIds]
          refine List.pairwise_cons.mpr ⟨?_, ih _⟩
          intro x hx
          have := mintedIds_lower_bound ops _ x hx
          simp only [poolStep, mintStep] at this ⊢
          omega
      | destroyObj oid =>
          rw [mintedIds]
          exact ih _

/-- Claim C8: teardown of an `Interpreter` holding a loaded image never
closes the image before the runtime-control handle is released: the trace
starts with the control-handle release (performed exactly once), closes
the image exactly once and as the very last action, and invokes the
"flush libraries" hook exactly once when isolation (`custom_loader_`) was
used and never otherwise — so every flush happens strictly between the
control-handle release and the image close. -/
theorem interpreter_teardown_order (h : Nat) (custom_loader : Bool) :
    (interpreterDtor (some h) custom_loader).head? =
      some TeardownEvent.resetControlHandle ∧
    (interpreterDtor (some h) custom_loader).getLast? =
      some TeardownEvent.closeImage ∧
    (interpreterDtor (some h) custom_loader).count
      TeardownEvent.resetControlHandle = 1 ∧
    (interpreterDtor (some h) custom_loader).count
      TeardownEvent.closeImage = 1 ∧
    (interpreterDtor (some h) custom_loader).count
      TeardownEvent.flushPythonLibs = (if custom_loader then 1 else 0) := by
  cases custom_loader <;>
    simp [interpreterDtor, List.count_cons, List.count_append]

/-- Claim C10: destroying an `Interpreter` whose image handle is null (a
moved-from instance) performs no teardown action at all — no
control-handle release, no flush hook, no image close — and returns
normally (the trace function is total). -/
theorem interpreter_teardown_null_handle (custom_loader : Bool) :
    interpreterDtor none custom_loader = [] ∧
    TeardownEvent.resetControlHandle ∉ interpreterDtor none custom_loader ∧
    TeardownEvent.flushPythonLibs ∉ interpreterDtor none custom_loader ∧
    TeardownEvent.closeImage ∉ interpreterDtor none custom_loader := by
  cases custom_loader <;> simp [interpreterDtor]

/-- Claim C9: on session destruction, the balancer's `free` runs exactly
once on the bound index if and only if the session was obtained through
balancing (manager present and `notify_idx_ ≥ 0`): that slot's counter is
decremented once (wrapping uint64) and every other slot, the pool size and
the cursor are untouched; a pinned session (no manager, or
`notify_idx_ < 0`) leaves the balancer state — every counter included —
exactly unchanged. -/
theorem sessionDtor_balancer_free (lb : LBState) :
    (∀ i : Nat, sessionDtorLB lb true (Int.ofNat i) = lb.free i) ∧
    (∀ i : Nat,
      (sessionDtorLB lb true (Int.ofNat i)).uses i = (lb.uses i - 1) % U64 ∧
      (∀ j, j ≠ i → (sessionDtorLB lb true (Int.ofNat i)).uses j = lb.uses j) ∧
      (sessionDtorLB lb true (Int.ofNat i)).n = lb.n ∧
      (sessionDtorLB lb true (Int.ofNat i)).last = lb.last) ∧
    (∀ k : Int, sessionDtorLB lb false k = lb) ∧
    (∀ k : Int, k < 0 → sessionDtorLB lb true k = lb) := by
  have hfree : ∀ i : Nat, sessionDtorLB lb true (Int.ofNat i) = lb.free i := by
    intro i
    unfold sessionDtorLB
    rw [if_pos ⟨rfl, Int.ofNat_nonneg i⟩]
    rfl
  refine ⟨hfree, ?_, ?_, ?_⟩
  · intro i
    rw [hfree i]
    refine ⟨?_, ?_, rfl, rfl⟩
    · show updFn lb.uses i ((lb.uses i - 1) % U64) i = _
      rw [updFn, if_pos rfl]
    · intro j hj
      show updFn lb.uses i ((lb.uses i - 1) % U64) j = _
      rw [updFn, if_neg hj]
  · intro k
    unfold sessionDtorLB
    rw [if_neg]
    rintro ⟨hk, -⟩
    exact Bool.false_ne_true hk
  · intro k hk
    unfold sessionDtorLB
    rw [if_neg]
    rintro ⟨-, hk'⟩
    omega

/-- Witness for C9 at a concrete input: a 2-slot balancer with counters 5
and 7; a balanced session bound to index 1 decrements slot 1 to 6 and
leaves slot 0 at 5; a pinned session (null manager, and `notify_idx_ = -1`
with a manager) changes nothing. -/
theorem sessionDtor_balancer_free_witness :
    (sessionDtorLB ⟨2, fun j => if j = 1 then 7 else 5, 0⟩ true (Int.ofNat 1)).uses 1 =
      ((7 : Int) - 1) % U64 ∧
    (sessionDtorLB ⟨2, fun j => if j = 1 then 7 else 5, 0⟩ false (-1) =
      ⟨2, fun j => if j = 1 then 7 else 5, 0⟩) ∧
    (sessionDtorLB ⟨2, fun j => if j = 1 then 7 else 5, 0⟩ true (-1) =
      ⟨2, fun j => if j = 1 then 7 else 5, 0⟩) :=
  ⟨((sessionDtor_balancer_free ⟨2, fun j => if j = 1 then 7 else 5, 0⟩).2.1 1).1,
   (sessionDtor_balancer_free ⟨2, fun j => if j = 1 then 7 else 5, 0⟩).2.2.1 (-1),
   (sessionDtor_balancer_free ⟨2, fun j => if j = 1 then 7 else 5, 0⟩).2.2.2 (-1)
     (by norm_num)⟩

end TorchDeploy

